import Mathlib

/- Shallow embedding of src/mask_rcnn_pytorch/boxutils.cpp over exact
rational arithmetic.  An [N, 4] tensor of boxes becomes a `List Box`;
an [N, 1] coordinate column becomes a `List ℚ`; elementwise tensor
arithmetic becomes per-row arithmetic.  Float division is guarded:
`none` stands for the NaN/Inf a zero denominator produces.  The
runtime's torch::log and torch::exp are taken as parameters `lg` and
`ex` of the functions that use them, constrained in theorems only by
the identity ex (lg x) = x for 0 < x.  Tensor.squeeze() and
torch::stack(.., 1) are modelled explicitly, because squeeze() of an
[1, 1] column yields a 0-D scalar on which stack(.., 1) is a dimension
error. -/

namespace BoxUtils

-- the Batteries rational operations are sealed for elaboration speed;
-- reopening them lets `decide` evaluate concrete rational arithmetic
attribute [local semireducible] Rat.mul Rat.inv Rat.add Rat.sub Rat.ofScientific

/-- An axis-aligned box: four coordinates in the source's fixed order
(y1, x1, y2, x2); one row of an [N, 4] tensor. -/
structure Box where
  y1 : ℚ
  x1 : ℚ
  y2 : ℚ
  x2 : ℚ
  deriving DecidableEq

/-- Modelled from the spec: the `Window` struct is declared in
boxutils.h, which is not among the sources; per the spec it is a single
box (y1, x1, y2, x2) of valid coordinate bounds, used only by
clipping. -/
structure Window where
  y1 : ℚ
  x1 : ℚ
  y2 : ℚ
  x2 : ℚ
  deriving DecidableEq

/-- The 4-entry tensor row holding a box. -/
def toRow (b : Box) : List ℚ := [b.y1, b.x1, b.y2, b.x2]

/-- Reading a box back out of a 4-entry tensor row. -/
def rowToBox (r : List ℚ) : Box := ⟨r.getD 0 0, r.getD 1 0, r.getD 2 0, r.getD 3 0⟩

/-- Guarded rational division, modelling IEEE float division: for a
zero denominator the float result (NaN or ±Inf) is no real number,
modelled as `none`. -/
def fdiv (a b : ℚ) : Option ℚ := if b = 0 then none else some (a / b)

/-- The per-box area expression of boxutils.cpp lines 26-27: with the
chunked columns b[0] = y1, b[1] = x1, b[2] = y2, b[3] = x2 the code
forms (b[2] - b[1]) * (b[3] - b[0]), i.e. (y2 - x1)·(x2 - y1). -/
def areaVec (b : Box) : ℚ := (b.y2 - b.x1) * (b.x2 - b.y1)

/-- The rectangle area as computed in BBoxOverlapsLoops, lines 63-66:
(y2 - y1)·(x2 - x1). -/
def area (b : Box) : ℚ := (b.y2 - b.y1) * (b.x2 - b.x1)

/-- Lines 13-32 of boxutils.cpp restricted to one pair-row of the
flattened [N·M, 4] tensors: intersection corners, zero-clamped
intersection area, the two per-box area expressions of lines 26-27,
union, and the final division. -/
def iouVec (a b : Box) : Option ℚ :=
  let y1 := max a.y1 b.y1
  let x1 := max a.x1 b.x1
  let y2 := min a.y2 b.y2
  let x2 := min a.x2 b.x2
  let intersection := max (x2 - x1) 0 * max (y2 - y1) 0
  let box_union := areaVec a + areaVec b - intersection
  fdiv intersection box_union

/-- boxes1.repeat({1, M}).view({-1, 4}) (line 9): every row repeated M
times in place. -/
def repeatRows (m : Nat) : List Box → List Box
  | [] => []
  | b :: t => List.replicate m b ++ repeatRows m t

/-- boxes2.repeat({N, 1}) (line 10): the whole box list tiled N
times. -/
def tileRows : Nat → List Box → List Box
  | 0, _ => []
  | n + 1, l => l ++ tileRows n l

/-- view({n, m}) (line 33) of a flat list: n rows of m entries each. -/
def chunksN {α : Type} : Nat → Nat → List α → List (List α)
  | 0, _, _ => []
  | n + 1, m, xs => xs.take m :: chunksN n m (xs.drop m)

/-- boxutils.cpp lines 3-36 (BBoxOverlaps): flatten all N·M pairs with
repeat / repeat-view, apply the per-pair computation, and view the flat
result as boxes2_repeat × boxes1_repeat = N × M rows. -/
def BBoxOverlaps (boxes1 boxes2 : List Box) : List (List (Option ℚ)) :=
  let boxes1_repeat := boxes2.length
  let boxes2_repeat := boxes1.length
  let flat1 := repeatRows boxes1_repeat boxes1
  let flat2 := tileRows boxes2_repeat boxes2
  chunksN boxes2_repeat boxes1_repeat (List.zipWith iouVec flat1 flat2)

/-- boxutils.cpp lines 46-59 (ComputeIou) restricted to one row of
`boxes`: intersection corners against the single box, zero-clamped
intersection area, union from the two passed-in areas, division. -/
def iouLoop (box b : Box) (box_area b_area : ℚ) : Option ℚ :=
  let y1 := max box.y1 b.y1
  let y2 := min box.y2 b.y2
  let x1 := max box.x1 b.x1
  let x2 := min box.x2 b.x2
  let intersection := max (x2 - x1) 0 * max (y2 - y1) 0
  let u := box_area + b_area - intersection
  fdiv intersection u

/-- boxutils.cpp lines 46-59 (ComputeIou): IoU of the given box against
every row of `boxes`, the areas passed in by the caller. -/
def ComputeIou (box : Box) (boxes : List Box) (box_area : ℚ) (boxes_area : List ℚ) :
    List (Option ℚ) :=
  List.zipWith (fun b ba => iouLoop box b box_area ba) boxes boxes_area

/-- boxutils.cpp lines 61-77 (BBoxOverlapsLoops): a zeros({N, M})
matrix whose column i is written as ComputeIou(boxes2[i], boxes1,
area2[i], area1); row r of the result reads entry r of every column
(the `some 0` default is the zeros() fill, never reached because every
column has length N). -/
def BBoxOverlapsLoops (boxes1 boxes2 : List Box) : List (List (Option ℚ)) :=
  let area1 := boxes1.map area
  let cols := List.zipWith (fun b2 a2 => ComputeIou b2 boxes1 a2 area1) boxes2 (boxes2.map area)
  (List.range boxes1.length).map fun r => cols.map fun c => c.getD r (some 0)

/-- A tensor that is 1-D, or 0-D after Tensor.squeeze() collapses an
[1, 1] column. -/
inductive Tens where
  | vec : List ℚ → Tens
  | scal : ℚ → Tens

/-- Tensor.squeeze() on an [N, 1] column: removes every size-1
dimension, so a single-row column collapses to a 0-D scalar. -/
def squeezeAll (c : List ℚ) : Tens :=
  if c.length = 1 then Tens.scal (c.headD 0) else Tens.vec c

/-- Tensor.squeeze(1) on an [N, 1] column: removes only dimension 1,
always leaving a 1-D tensor of length N. -/
def squeezeDim1 (c : List ℚ) : Tens := Tens.vec c

/-- Rows [a, b, c, d] read off four equal-length columns. -/
def transpose4 : List ℚ → List ℚ → List ℚ → List ℚ → List (List ℚ)
  | a :: ta, b :: tb, c :: tc, d :: td => [a, b, c, d] :: transpose4 ta tb tc td
  | _, _, _, _ => []

/-- torch::stack({c1, c2, c3, c4}, 1): succeeds on four 1-D tensors of
equal length, yielding their rows; on any 0-D input the requested
dimension 1 is out of range, a runtime error, modelled as `none`. -/
def stackCols4 : Tens → Tens → Tens → Tens → Option (List (List ℚ)) :=
  fun t1 t2 t3 t4 =>
    match t1, t2, t3, t4 with
    | Tens.vec a, Tens.vec b, Tens.vec c, Tens.vec d =>
      if a.length = b.length ∧ b.length = c.length ∧ c.length = d.length then
        some (transpose4 a b c d)
      else none
    | _, _, _, _ => none

/-- Line 80 / 102: height = y2 - y1. -/
def heightOf (b : Box) : ℚ := b.y2 - b.y1

/-- Line 81 / 103: width = x2 - x1. -/
def widthOf (b : Box) : ℚ := b.x2 - b.x1

/-- Line 82 / 104: center_y = y1 + 0.5·height. -/
def centerYOf (b : Box) : ℚ := b.y1 + 1/2 * heightOf b

/-- Line 83 / 105: center_x = x1 + 0.5·width. -/
def centerXOf (b : Box) : ℚ := b.x1 + 1/2 * widthOf b

/-- Line 90: dy = (gt_center_y - center_y) / height.  Unguarded like
the source, which promises nothing for zero height. -/
def dyOf (b g : Box) : ℚ := (centerYOf g - centerYOf b) / heightOf b

/-- Line 91: dx = (gt_center_x - center_x) / width. -/
def dxOf (b g : Box) : ℚ := (centerXOf g - centerXOf b) / widthOf b

/-- Line 92: dh = log(gt_height / height), torch::log as `lg`. -/
def dhOf (lg : ℚ → ℚ) (b g : Box) : ℚ := lg (heightOf g / heightOf b)

/-- Line 93: dw = log(gt_width / width). -/
def dwOf (lg : ℚ → ℚ) (b g : Box) : ℚ := lg (widthOf g / widthOf b)

/-- One row of BoxRefinement's stacked result (lines 95-96). -/
def refRow (lg : ℚ → ℚ) (b g : Box) : List ℚ :=
  [dyOf b g, dxOf b g, dhOf lg b g, dwOf lg b g]

/-- boxutils.cpp lines 79-98 (BoxRefinement); torch::log is the
parameter lg.  The four delta columns go through squeeze(1), which
keeps them 1-D for every N, then stack(.., 1). -/
def BoxRefinement (lg : ℚ → ℚ) (box gt_box : List Box) : Option (List (List ℚ)) :=
  let pairs := box.zip gt_box
  stackCols4
    (squeezeDim1 (pairs.map fun p => dyOf p.1 p.2))
    (squeezeDim1 (pairs.map fun p => dxOf p.1 p.2))
    (squeezeDim1 (pairs.map fun p => dhOf lg p.1 p.2))
    (squeezeDim1 (pairs.map fun p => dwOf lg p.1 p.2))

/-- Line 107: center_y += deltas[0]·height. -/
def newCenterY (b : Box) (d : List ℚ) : ℚ := centerYOf b + d.getD 0 0 * heightOf b

/-- Line 108: center_x += deltas[1]·width. -/
def newCenterX (b : Box) (d : List ℚ) : ℚ := centerXOf b + d.getD 1 0 * widthOf b

/-- Line 110: height *= exp(deltas[2]), torch::exp as `ex`. -/
def newHeight (ex : ℚ → ℚ) (b : Box) (d : List ℚ) : ℚ := heightOf b * ex (d.getD 2 0)

/-- Line 111: width *= exp(deltas[3]). -/
def newWidth (ex : ℚ → ℚ) (b : Box) (d : List ℚ) : ℚ := widthOf b * ex (d.getD 3 0)

/-- Line 113: y1 = center_y - 0.5·height. -/
def newY1 (ex : ℚ → ℚ) (b : Box) (d : List ℚ) : ℚ := newCenterY b d - 1/2 * newHeight ex b d

/-- Line 114: x1 = center_x - 0.5·width. -/
def newX1 (ex : ℚ → ℚ) (b : Box) (d : List ℚ) : ℚ := newCenterX b d - 1/2 * newWidth ex b d

/-- Line 115: y2 = y1 + height. -/
def newY2 (ex : ℚ → ℚ) (b : Box) (d : List ℚ) : ℚ := newY1 ex b d + newHeight ex b d

/-- Line 116: x2 = x1 + width. -/
def newX2 (ex : ℚ → ℚ) (b : Box) (d : List ℚ) : ℚ := newX1 ex b d + newWidth ex b d

/-- boxutils.cpp lines 100-121 (ApplyBoxDeltas); torch::exp is the
parameter ex.  The four result columns go through Tensor.squeeze()
(all dimensions), then torch::stack(.., 1): a single-row input
collapses the columns to 0-D scalars and the stack is a dimension
error. -/
def ApplyBoxDeltas (ex : ℚ → ℚ) (boxes : List Box) (deltas : List (List ℚ)) :
    Option (List (List ℚ)) :=
  let pairs := boxes.zip deltas
  stackCols4
    (squeezeAll (pairs.map fun p => newY1 ex p.1 p.2))
    (squeezeAll (pairs.map fun p => newX1 ex p.1 p.2))
    (squeezeAll (pairs.map fun p => newY2 ex p.1 p.2))
    (squeezeAll (pairs.map fun p => newX2 ex p.1 p.2))

/-- Tensor.clamp(lo, hi): min(max(v, lo), hi). -/
def clampQ (v lo hi : ℚ) : ℚ := min (max v lo) hi

/-- The per-row effect of clamping the four coordinate columns (lines
128-141 and 146-153): y-coordinates against [w.y1, w.y2],
x-coordinates against [w.x1, w.x2]. -/
def clampBox (w : Window) (b : Box) : Box :=
  ⟨clampQ b.y1 w.y1 w.y2, clampQ b.x1 w.x1 w.x2,
   clampQ b.y2 w.y1 w.y2, clampQ b.x2 w.x1 w.x2⟩

/-- boxutils.cpp lines 127-143 (ClipBoxes): the four clamped columns go
through Tensor.squeeze() and torch::stack(.., 1) into a fresh tensor;
the caller's tensor is never written (the C++ only rebinds its local
`boxes`). -/
def ClipBoxes (boxes : List Box) (w : Window) : Option (List (List ℚ)) :=
  stackCols4
    (squeezeAll (boxes.map fun b => clampQ b.y1 w.y1 w.y2))
    (squeezeAll (boxes.map fun b => clampQ b.x1 w.x1 w.x2))
    (squeezeAll (boxes.map fun b => clampQ b.y2 w.y1 w.y2))
    (squeezeAll (boxes.map fun b => clampQ b.x2 w.x1 w.x2))

/-- boxutils.cpp lines 145-155 (ClipToWindow): assigns each clamped
column back into the caller's tensor and returns it; the net new
contents are the per-row clamp. -/
def ClipToWindow (w : Window) (boxes : List Box) : List Box :=
  boxes.map (clampBox w)

/-- State-passing view of ClipBoxes: first component is the caller's
storage after the call (unchanged), second the returned fresh
tensor. -/
def ClipBoxesS (boxes : List Box) (w : Window) : List Box × Option (List (List ℚ)) :=
  (boxes, ClipBoxes boxes w)

/-- State-passing view of ClipToWindow: first component is the
caller's storage after the call (mutated through the column
assignments), second the return value - the very same tensor. -/
def ClipToWindowS (w : Window) (boxes : List Box) : List Box × List Box :=
  (ClipToWindow w boxes, ClipToWindow w boxes)

/-- Every coordinate of every box already lies inside the window. -/
def InWin (w : Window) (l : List Box) : Prop :=
  ∀ b ∈ l, w.y1 ≤ b.y1 ∧ b.y1 ≤ w.y2 ∧ w.x1 ≤ b.x1 ∧ b.x1 ≤ w.x2 ∧
    w.y1 ≤ b.y2 ∧ b.y2 ≤ w.y2 ∧ w.x1 ≤ b.x2 ∧ b.x2 ≤ w.x2

/-- Positive height and width. -/
def posHW (b : Box) : Prop := b.y1 < b.y2 ∧ b.x1 < b.x2

/-- The boxes on which the area expression of lines 26-27 coincides
with the true rectangle area: (y2 - x1)(x2 - y1) = (y2 - y1)(x2 - x1)
iff x1 = y1 or y2 = x2. -/
def sameAreaCond (b : Box) : Prop := b.x1 = b.y1 ∨ b.y2 = b.x2

/-- The claim's notion of a disjoint pair: the intersection rectangle
has non-positive width or non-positive height. -/
def disjointB (a b : Box) : Prop :=
  min a.x2 b.x2 - max a.x1 b.x1 ≤ 0 ∨ min a.y2 b.y2 - max a.y1 b.y1 ≤ 0

instance (w : Window) (l : List Box) : Decidable (InWin w l) :=
  inferInstanceAs (Decidable (∀ b ∈ l, _ ∧ _ ∧ _ ∧ _ ∧ _ ∧ _ ∧ _ ∧ _))

instance (b : Box) : Decidable (posHW b) :=
  inferInstanceAs (Decidable (_ ∧ _))

instance (b : Box) : Decidable (sameAreaCond b) :=
  inferInstanceAs (Decidable (_ ∨ _))

instance (a b : Box) : Decidable (disjointB a b) :=
  inferInstanceAs (Decidable (_ ∨ _))

/-! Helper lemmas about the tensor-assembly primitives. -/

theorem transpose4_map {α : Type} (f1 f2 f3 f4 : α → ℚ) (l : List α) :
    transpose4 (l.map f1) (l.map f2) (l.map f3) (l.map f4)
      = l.map fun x => [f1 x, f2 x, f3 x, f4 x] := by
  induction l with
  | nil => rfl
  | cons x t ih => simp [transpose4, ih]

theorem stackCols4_squeezeAll_maps {α : Type} (f1 f2 f3 f4 : α → ℚ) (l : List α)
    (h : l.length ≠ 1) :
    stackCols4 (squeezeAll (l.map f1)) (squeezeAll (l.map f2))
        (squeezeAll (l.map f3)) (squeezeAll (l.map f4))
      = some (l.map fun x => [f1 x, f2 x, f3 x, f4 x]) := by
  simp [squeezeAll, List.length_map, h, stackCols4, transpose4_map]

theorem stackCols4_squeezeAll_one {α : Type} (f1 f2 f3 f4 : α → ℚ) (l : List α)
    (h : l.length = 1) :
    stackCols4 (squeezeAll (l.map f1)) (squeezeAll (l.map f2))
        (squeezeAll (l.map f3)) (squeezeAll (l.map f4)) = none := by
  simp [squeezeAll, List.length_map, h, stackCols4]

theorem stackCols4_dim1_maps {α : Type} (f1 f2 f3 f4 : α → ℚ) (l : List α) :
    stackCols4 (squeezeDim1 (l.map f1)) (squeezeDim1 (l.map f2))
        (squeezeDim1 (l.map f3)) (squeezeDim1 (l.map f4))
      = some (l.map fun x => [f1 x, f2 x, f3 x, f4 x]) := by
  simp [squeezeDim1, List.length_map, stackCols4, transpose4_map]

/-! The two pairwise-overlap functions as row-major maps of their
per-pair kernels: this pins down shape, orientation and every entry. -/

theorem zipWith_iouVec_replicate (a : Box) (l : List Box) :
    List.zipWith iouVec (List.replicate l.length a) l = l.map fun b => iouVec a b := by
  induction l with
  | nil => rfl
  | cons x t ih => simpa [List.replicate_succ] using ih

theorem overlaps_pipeline (boxes2 : List Box) (boxes1 : List Box) :
    chunksN boxes1.length boxes2.length
        (List.zipWith iouVec (repeatRows boxes2.length boxes1)
          (tileRows boxes1.length boxes2))
      = boxes1.map fun a => boxes2.map fun b => iouVec a b := by
  induction boxes1 with
  | nil => rfl
  | cons a t ih =>
    show chunksN (t.length + 1) boxes2.length
        (List.zipWith iouVec (List.replicate boxes2.length a ++ repeatRows boxes2.length t)
          (boxes2 ++ tileRows t.length boxes2)) = _
    rw [List.zipWith_append _ _ _ _ _ (by simp), chunksN,
      List.take_left' (by simp), List.drop_left' (by simp),
      zipWith_iouVec_replicate, ih]
    rfl

theorem BBoxOverlaps_eq_map (boxes1 boxes2 : List Box) :
    BBoxOverlaps boxes1 boxes2 = boxes1.map fun a => boxes2.map fun b => iouVec a b :=
  overlaps_pipeline boxes2 boxes1

theorem BBoxOverlapsLoops_eq_map (boxes1 boxes2 : List Box) :
    BBoxOverlapsLoops boxes1 boxes2
      = boxes1.map fun a => boxes2.map fun b => iouLoop b a (area b) (area a) := by
  unfold BBoxOverlapsLoops
  apply List.ext_getElem
  · simp
  intro r h1 h2
  simp only [List.getElem_map, List.getElem_range]
  apply List.ext_getElem
  · simp
  intro c hc1 hc2
  simp only [List.getElem_map, List.getElem_zipWith]
  have hr : r < boxes1.length := by simpa using h1
  rw [List.getD_eq_getElem?_getD, ComputeIou, List.getElem?_zipWith]
  rw [List.getElem?_eq_getElem hr, List.getElem?_eq_getElem (by simpa using hr)]
  simp

/-! Relating the two per-pair kernels. -/

theorem areaVec_eq_area {b : Box} (h : sameAreaCond b) : areaVec b = area b := by
  rcases h with h | h
  · simp [areaVec, area, h]
  · simp only [areaVec, area, h]; ring

theorem iouLoop_eq_iouVec {a b : Box} (ha : sameAreaCond a) (hb : sameAreaCond b) :
    iouLoop b a (area b) (area a) = iouVec a b := by
  simp only [iouLoop, iouVec, areaVec_eq_area ha, areaVec_eq_area hb,
    max_comm b.y1 a.y1, min_comm b.y2 a.y2, max_comm b.x1 a.x1, min_comm b.x2 a.x2,
    add_comm (area b) (area a)]

/-! Clamping lemmas. -/

theorem clampQ_of_le {v lo hi : ℚ} (h1 : lo ≤ v) (h2 : v ≤ hi) : clampQ v lo hi = v := by
  simp [clampQ, max_eq_left h1, min_eq_left h2]

theorem clampQ_idem (v lo hi : ℚ) : clampQ (clampQ v lo hi) lo hi = clampQ v lo hi := by
  unfold clampQ
  rcases le_total (max v lo) hi with h | h
  · rw [min_eq_left h, max_eq_left (le_max_right v lo), min_eq_left h]
  · rw [min_eq_right h, max_comm, min_eq_right (le_max_right lo hi)]

theorem clampQ_le_hi (v lo hi : ℚ) : clampQ v lo hi ≤ hi := min_le_right _ _

theorem lo_le_clampQ {v lo hi : ℚ} (h : lo ≤ hi) : lo ≤ clampQ v lo hi :=
  le_min (le_max_right v lo) h

theorem clampBox_idem (w : Window) (b : Box) :
    clampBox w (clampBox w b) = clampBox w b := by
  simp [clampBox, clampQ_idem]

theorem rowToBox_toRow (b : Box) : rowToBox (toRow b) = b := rfl

/-! ClipBoxes, ApplyBoxDeltas and BoxRefinement in closed form. -/

theorem ClipBoxes_eq_map (w : Window) {boxes : List Box} (h : boxes.length ≠ 1) :
    ClipBoxes boxes w = some ((boxes.map fun b => clampBox w b).map toRow) := by
  unfold ClipBoxes
  rw [stackCols4_squeezeAll_maps _ _ _ _ _ h]
  simp [clampBox, toRow, List.map_map, Function.comp]

theorem ClipBoxes_one (w : Window) {boxes : List Box} (h : boxes.length = 1) :
    ClipBoxes boxes w = none :=
  stackCols4_squeezeAll_one _ _ _ _ _ h

theorem ApplyBoxDeltas_eq_map (ex : ℚ → ℚ) (boxes : List Box) (deltas : List (List ℚ))
    (h : (boxes.zip deltas).length ≠ 1) :
    ApplyBoxDeltas ex boxes deltas
      = some ((boxes.zip deltas).map fun p =>
          [newY1 ex p.1 p.2, newX1 ex p.1 p.2, newY2 ex p.1 p.2, newX2 ex p.1 p.2]) :=
  stackCols4_squeezeAll_maps _ _ _ _ _ h

theorem ApplyBoxDeltas_one (ex : ℚ → ℚ) (boxes : List Box) (deltas : List (List ℚ))
    (h : (boxes.zip deltas).length = 1) :
    ApplyBoxDeltas ex boxes deltas = none :=
  stackCols4_squeezeAll_one _ _ _ _ _ h

theorem BoxRefinement_eq_map (lg : ℚ → ℚ) (box gt_box : List Box) :
    BoxRefinement lg box gt_box = some ((box.zip gt_box).map fun p => refRow lg p.1 p.2) := by
  unfold BoxRefinement
  rw [stackCols4_dim1_maps]
  rfl

/-! The refinement / application round trip, row by row. -/

theorem roundtrip_row (lg ex : ℚ → ℚ) (hle : ∀ x : ℚ, 0 < x → ex (lg x) = x)
    (b g : Box) (hb : posHW b) (hg : posHW g) :
    [newY1 ex b (refRow lg b g), newX1 ex b (refRow lg b g),
     newY2 ex b (refRow lg b g), newX2 ex b (refRow lg b g)] = toRow g := by
  have hhp : 0 < heightOf b := sub_pos.mpr hb.1
  have hwp : 0 < widthOf b := sub_pos.mpr hb.2
  have hh : heightOf b ≠ 0 := ne_of_gt hhp
  have hw : widthOf b ≠ 0 := ne_of_gt hwp
  have hgh : 0 < heightOf g := sub_pos.mpr hg.1
  have hgw : 0 < widthOf g := sub_pos.mpr hg.2
  have e1 : ex (lg (heightOf g / heightOf b)) = heightOf g / heightOf b :=
    hle _ (div_pos hgh hhp)
  have e2 : ex (lg (widthOf g / widthOf b)) = widthOf g / widthOf b :=
    hle _ (div_pos hgw hwp)
  simp only [refRow, newY1, newX1, newY2, newX2, newCenterY, newCenterX,
    newHeight, newWidth, dyOf, dxOf, dhOf, dwOf,
    List.getD_cons_zero, List.getD_cons_succ, toRow, e1, e2]
  simp only [heightOf, widthOf, centerYOf, centerXOf] at hh hw ⊢
  refine List.cons_eq_cons.mpr ⟨?_, List.cons_eq_cons.mpr ⟨?_,
    List.cons_eq_cons.mpr ⟨?_, List.cons_eq_cons.mpr ⟨?_, rfl⟩⟩⟩⟩ <;>
    field_simp <;> ring

theorem roundtrip_rows (lg ex : ℚ → ℚ) (hle : ∀ x : ℚ, 0 < x → ex (lg x) = x) :
    ∀ (A B : List Box), A.length = B.length →
      (∀ b ∈ A, posHW b) → (∀ b ∈ B, posHW b) →
      (A.zip ((A.zip B).map fun p => refRow lg p.1 p.2)).map
          (fun p => [newY1 ex p.1 p.2, newX1 ex p.1 p.2, newY2 ex p.1 p.2, newX2 ex p.1 p.2])
        = B.map toRow := by
  intro A
  induction A with
  | nil =>
    intro B hB _ _
    cases B with
    | nil => rfl
    | cons g s => simp at hB
  | cons a t ih =>
    intro B hB hA hBB
    cases B with
    | nil => simp at hB
    | cons g s =>
      simp only [List.zip_cons_cons, List.map_cons]
      rw [roundtrip_row lg ex hle a g (hA a (by simp)) (hBB g (by simp)),
        ih s (by simpa using hB) (fun b hb => hA b (by simp [hb]))
          (fun b hb => hBB b (by simp [hb]))]

theorem clampBox_of_inwin {w : Window} {b : Box}
    (h : w.y1 ≤ b.y1 ∧ b.y1 ≤ w.y2 ∧ w.x1 ≤ b.x1 ∧ b.x1 ≤ w.x2 ∧
      w.y1 ≤ b.y2 ∧ b.y2 ≤ w.y2 ∧ w.x1 ≤ b.x2 ∧ b.x2 ≤ w.x2) :
    clampBox w b = b := by
  obtain ⟨h1, h2, h3, h4, h5, h6, h7, h8⟩ := h
  simp [clampBox, clampQ_of_le h1 h2, clampQ_of_le h3 h4,
    clampQ_of_le h5 h6, clampQ_of_le h7 h8]

/-! The claims. -/

/-- Claim C1 (code_bug): the claim says each box's own area in
BBoxOverlaps is (y2 - y1)·(x2 - x1), making the result the true IoU;
lines 26-27 actually read the chunked columns as
(b[2] - b[1])·(b[3] - b[0]) = (y2 - x1)·(x2 - y1).  At the box
A = (y1 1, x1 0, y2 3, x2 4) the true area is 8 but the expression
gives 9, and BBoxOverlaps([A], [A]) returns 8/10 = 4/5 instead of the
true IoU(A, A) = 1, which BBoxOverlapsLoops computes from the same
intersection with the true areas. -/
theorem c1_area_expression_bug :
    areaVec ⟨1, 0, 3, 4⟩ = 9 ∧ area ⟨1, 0, 3, 4⟩ = 8 ∧
    BBoxOverlaps [⟨1, 0, 3, 4⟩] [⟨1, 0, 3, 4⟩] = [[some ((4 : ℚ)/5)]] ∧
    BBoxOverlapsLoops [⟨1, 0, 3, 4⟩] [⟨1, 0, 3, 4⟩] = [[some 1]] ∧
    ((4 : ℚ)/5 ≠ 1) := by
  decide

/-- Claim C2, counterexample: the claim says BBoxOverlaps on N boxes1
and M boxes2 has shape [M, N].  With N = 2 and M = 1 the result has 2
rows, not M = 1. -/
theorem c2_orientation_counterexample :
    (BBoxOverlaps [⟨0, 0, 1, 1⟩, ⟨0, 0, 2, 2⟩] [⟨0, 0, 3, 3⟩]).length
      ≠ ([⟨0, 0, 3, 3⟩] : List Box).length := by
  decide

/-- Claim C2, amended: BBoxOverlaps(boxes1, boxes2) is the [N, M]
matrix whose rows are indexed by boxes1 and whose entry (i, j) is the
per-pair value computed for (boxes1[i], boxes2[j]) - the opposite
orientation from the claim. -/
theorem c2_orientation_amended :
    ∀ boxes1 boxes2 : List Box,
      BBoxOverlaps boxes1 boxes2 = boxes1.map (fun a => boxes2.map fun b => iouVec a b)
      ∧ (BBoxOverlaps boxes1 boxes2).length = boxes1.length := by
  intro b1 b2
  refine ⟨BBoxOverlaps_eq_map b1 b2, ?_⟩
  rw [BBoxOverlaps_eq_map]
  simp

/-- Claim C3, counterexample: the claim says
BBoxOverlapsLoops(b1, b2)[i][j] = BBoxOverlaps(b1, b2)[j][i].  At
i = j = 0 with the single box (2, 1, 3, 5) the left side is 1 and the
right side is 1/2, because BBoxOverlaps miscomputes the areas. -/
theorem c3_loops_vs_vectorized_counterexample :
    ((BBoxOverlapsLoops [⟨2, 1, 3, 5⟩] [⟨2, 1, 3, 5⟩]).getD 0 []).getD 0 none
      ≠ ((BBoxOverlaps [⟨2, 1, 3, 5⟩] [⟨2, 1, 3, 5⟩]).getD 0 []).getD 0 none := by
  decide

/-- Claim C3, amended: BBoxOverlapsLoops shares BBoxOverlaps's [N, M]
orientation - unconditionally, row i is indexed by boxes1 and entry
(i, j) is the per-pair value for (boxes1[i], boxes2[j]), so the
claimed transposition fails - and the two matrices are equal (not
transposes of each other) whenever every box of both sets has x1 = y1
or y2 = x2, a sufficient condition under which the area expression of
lines 26-27 coincides with the true area; without it the entries can
differ, as the counterexample shows. -/
theorem c3_loops_vs_vectorized_amended :
    ∀ boxes1 boxes2 : List Box,
      (BBoxOverlapsLoops boxes1 boxes2
          = boxes1.map fun a => boxes2.map fun b => iouLoop b a (area b) (area a))
      ∧ ((∀ b ∈ boxes1, sameAreaCond b) → (∀ b ∈ boxes2, sameAreaCond b) →
          BBoxOverlapsLoops boxes1 boxes2 = BBoxOverlaps boxes1 boxes2) := by
  intro b1 b2
  refine ⟨BBoxOverlapsLoops_eq_map b1 b2, ?_⟩
  intro h1 h2
  rw [BBoxOverlapsLoops_eq_map, BBoxOverlaps_eq_map]
  exact List.map_congr_left fun a ha => List.map_congr_left fun b hb =>
    iouLoop_eq_iouVec (h1 a ha) (h2 b hb)

/-- Claim C3, witness: a concrete instance of the amended conditional
equality, with its hypotheses discharged. -/
theorem c3_loops_vs_vectorized_witness :
    BBoxOverlapsLoops [⟨0, 0, 2, 3⟩] [⟨0, 0, 1, 5⟩]
      = BBoxOverlaps [⟨0, 0, 2, 3⟩] [⟨0, 0, 1, 5⟩] :=
  (c3_loops_vs_vectorized_amended _ _).2 (by decide) (by decide)

/-- Claim C4, counterexample: for a single-row pair of positive boxes
the round trip does not return B: squeeze() collapses the [1, 1]
columns of ApplyBoxDeltas to 0-D scalars and stack(.., 1) is a
dimension error (none), even though every claim hypothesis holds. -/
theorem c4_roundtrip_counterexample :
    (BoxRefinement id [⟨0, 0, 2, 2⟩] [⟨1, 1, 4, 5⟩]).bind
        (fun d => ApplyBoxDeltas id [⟨0, 0, 2, 2⟩] d) = none
    ∧ posHW (⟨0, 0, 2, 2⟩ : Box) ∧ posHW (⟨1, 1, 4, 5⟩ : Box)
    ∧ (none : Option (List (List ℚ))) ≠ some (([⟨1, 1, 4, 5⟩] : List Box).map toRow) := by
  decide

/-- Claim C4, amended: for paired box sets of equal row count other
than one, with positive heights and widths, applying the deltas of
BoxRefinement(A, B) to A gives back exactly B (exact arithmetic; lg
and ex stand for the runtime log and exp, related by ex (lg x) = x on
positives). -/
theorem c4_roundtrip_amended :
    ∀ (lg ex : ℚ → ℚ), (∀ x : ℚ, 0 < x → ex (lg x) = x) →
    ∀ (A B : List Box), A.length = B.length → A.length ≠ 1 →
    (∀ b ∈ A, posHW b) → (∀ b ∈ B, posHW b) →
    (BoxRefinement lg A B).bind (fun d => ApplyBoxDeltas ex A d) = some (B.map toRow) := by
  intro lg ex hle A B hlen hne hA hB
  rw [BoxRefinement_eq_map]
  show ApplyBoxDeltas ex A ((A.zip B).map fun p => refRow lg p.1 p.2) = _
  have hz : (A.zip ((A.zip B).map fun p => refRow lg p.1 p.2)).length ≠ 1 := by
    simp only [List.length_zip, List.length_map, ← hlen, Nat.min_self]
    exact hne
  rw [ApplyBoxDeltas_eq_map ex _ _ hz, roundtrip_rows lg ex hle A B hlen hA hB]

/-- Claim C4, witness: a concrete two-row instance of the amended
round trip, with lg = ex = id (which satisfy ex (lg x) = x). -/
theorem c4_roundtrip_witness :
    (BoxRefinement id [⟨0, 0, 2, 2⟩, ⟨1, 1, 3, 5⟩] [⟨0, 0, 4, 4⟩, ⟨2, 2, 4, 8⟩]).bind
        (fun d => ApplyBoxDeltas id [⟨0, 0, 2, 2⟩, ⟨1, 1, 3, 5⟩] d)
      = some (([⟨0, 0, 4, 4⟩, ⟨2, 2, 4, 8⟩] : List Box).map toRow) :=
  c4_roundtrip_amended id id (fun _ _ => rfl) _ _ rfl (by decide) (by decide) (by decide)

/-- Claim C5 (code_bug): the claim says every diagonal self-IoU is
exactly 1 in each overlap function.  BBoxOverlapsLoops does give 1 for
the non-degenerate box A = (2, 0, 5, 6), but BBoxOverlaps gives
9/11, because its area expression (y2 - x1)(x2 - y1) = 20 differs
from the true area 18. -/
theorem c5_self_iou_bug :
    posHW (⟨2, 0, 5, 6⟩ : Box)
    ∧ BBoxOverlapsLoops [⟨2, 0, 5, 6⟩] [⟨2, 0, 5, 6⟩] = [[some 1]]
    ∧ BBoxOverlaps [⟨2, 0, 5, 6⟩] [⟨2, 0, 5, 6⟩] = [[some ((9 : ℚ)/11)]]
    ∧ ((9 : ℚ)/11 ≠ 1) := by
  decide

/-- Claim C6, counterexample: the claim says every disjoint pair gets
IoU exactly 0.  The disjoint degenerate pair (0,0,0,0), (2,2,2,2) has
zero union in both functions, so the division is 0/0 - NaN in the
code, `none` here - not 0. -/
theorem c6_disjoint_counterexample :
    disjointB ⟨0, 0, 0, 0⟩ ⟨2, 2, 2, 2⟩
    ∧ BBoxOverlapsLoops [⟨0, 0, 0, 0⟩] [⟨2, 2, 2, 2⟩] = [[none]]
    ∧ BBoxOverlaps [⟨0, 0, 0, 0⟩] [⟨2, 2, 2, 2⟩] = [[none]]
    ∧ ([[(none : Option ℚ)]] ≠ [[some (0 : ℚ)]]) := by
  decide

/-- Claim C6, amended: for every disjoint pair the clamped
intersection is 0, so whenever the respective union term is nonzero
each function returns exactly 0. -/
theorem c6_disjoint_amended :
    ∀ a b : Box, disjointB a b →
      (areaVec a + areaVec b ≠ 0 → BBoxOverlaps [a] [b] = [[some 0]])
      ∧ (area a + area b ≠ 0 → BBoxOverlapsLoops [a] [b] = [[some 0]]) := by
  intro a b hd
  have hx : max (min a.x2 b.x2 - max a.x1 b.x1) 0 * max (min a.y2 b.y2 - max a.y1 b.y1) 0
      = 0 := by
    rcases hd with h | h
    · rw [max_eq_right h, zero_mul]
    · rw [max_eq_right h, mul_zero]
  have hx2 : max (min b.x2 a.x2 - max b.x1 a.x1) 0 * max (min b.y2 a.y2 - max b.y1 a.y1) 0
      = 0 := by
    rw [min_comm b.x2 a.x2, max_comm b.x1 a.x1, min_comm b.y2 a.y2, max_comm b.y1 a.y1]
    exact hx
  constructor
  · intro hu
    rw [BBoxOverlaps_eq_map]
    simp only [List.map_cons, List.map_nil]
    have he : iouVec a b = some 0 := by
      simp only [iouVec, hx, sub_zero, fdiv, hu, if_false, zero_div]
    rw [he]
  · intro hu
    rw [BBoxOverlapsLoops_eq_map]
    simp only [List.map_cons, List.map_nil]
    have hu2 : area b + area a ≠ 0 := by rwa [add_comm]
    have he : iouLoop b a (area b) (area a) = some 0 := by
      simp only [iouLoop, hx2, sub_zero, fdiv, hu2, if_false, zero_div]
    rw [he]

/-- Claim C6, witness: the claim's own example A = (0,0,1,1),
B = (2,2,3,3) gives exactly 0 in both functions. -/
theorem c6_disjoint_witness :
    BBoxOverlaps [⟨0, 0, 1, 1⟩] [⟨2, 2, 3, 3⟩] = [[some 0]]
    ∧ BBoxOverlapsLoops [⟨0, 0, 1, 1⟩] [⟨2, 2, 3, 3⟩] = [[some 0]] :=
  ⟨(c6_disjoint_amended _ _ (by decide)).1 (by decide),
   (c6_disjoint_amended _ _ (by decide)).2 (by decide)⟩

/-- Claim C7, counterexample: the claim says clipping an
already-in-window box set returns it unchanged; for a single-row set
ClipBoxes instead hits the squeeze()/stack(.., 1) dimension error and
returns nothing. -/
theorem c7_clip_idempotence_counterexample :
    InWin ⟨0, 0, 2, 2⟩ [⟨0, 0, 1, 1⟩]
    ∧ ClipBoxes [⟨0, 0, 1, 1⟩] ⟨0, 0, 2, 2⟩ = none
    ∧ (none : Option (List (List ℚ))) ≠ some (([⟨0, 0, 1, 1⟩] : List Box).map toRow) := by
  decide

/-- Claim C7, amended: for box sets with row count other than one,
ClipBoxes returns an in-window set unchanged; re-clipping its result
always equals clipping once; and the in-place variant satisfies both
properties without the row-count restriction. -/
theorem c7_clip_idempotence_amended :
    ∀ (boxes : List Box) (w : Window),
      (boxes.length ≠ 1 → InWin w boxes → ClipBoxes boxes w = some (boxes.map toRow))
      ∧ ((ClipBoxes boxes w).bind (fun rows => ClipBoxes (rows.map rowToBox) w)
          = ClipBoxes boxes w)
      ∧ (InWin w boxes → ClipToWindow w boxes = boxes)
      ∧ ClipToWindow w (ClipToWindow w boxes) = ClipToWindow w boxes := by
  intro boxes w
  have hmapeq : InWin w boxes → boxes.map (fun b => clampBox w b) = boxes := by
    intro h
    have h2 : boxes.map (fun b => clampBox w b) = boxes.map id :=
      List.map_congr_left fun b hb => clampBox_of_inwin (h b hb)
    simpa using h2
  refine ⟨?_, ?_, ?_, ?_⟩
  · intro hne hin
    rw [ClipBoxes_eq_map w hne, hmapeq hin]
  · by_cases hne : boxes.length = 1
    · rw [ClipBoxes_one w hne]
      rfl
    · rw [ClipBoxes_eq_map w hne]
      show ClipBoxes ((((boxes.map fun b => clampBox w b).map toRow)).map rowToBox) w = _
      have hrows : (((boxes.map fun b => clampBox w b).map toRow)).map rowToBox
          = boxes.map fun b => clampBox w b := by
        rw [List.map_map]
        have h3 : List.map (rowToBox ∘ toRow) (boxes.map fun b => clampBox w b)
            = List.map id (boxes.map fun b => clampBox w b) :=
          List.map_congr_left fun b _ => rowToBox_toRow b
        simpa using h3
      rw [hrows, ClipBoxes_eq_map w (by simpa using hne)]
      simp [List.map_map, Function.comp, clampBox_idem]
  · intro hin
    show boxes.map _ = boxes
    exact hmapeq hin
  · simp [ClipToWindow, List.map_map, Function.comp, clampBox_idem]

/-- Claim C7, witness: a concrete two-row in-window instance of the
amended idempotence properties. -/
theorem c7_clip_idempotence_witness :
    ClipBoxes [⟨1, 1, 2, 2⟩, ⟨0, 0, 3, 3⟩] ⟨0, 0, 5, 5⟩
      = some (([⟨1, 1, 2, 2⟩, ⟨0, 0, 3, 3⟩] : List Box).map toRow)
    ∧ ClipToWindow ⟨0, 0, 5, 5⟩ [⟨1, 1, 2, 2⟩, ⟨0, 0, 3, 3⟩] = [⟨1, 1, 2, 2⟩, ⟨0, 0, 3, 3⟩] :=
  ⟨(c7_clip_idempotence_amended _ _).1 (by decide) (by decide),
   (c7_clip_idempotence_amended _ _).2.2.1 (by decide)⟩

/-- Claim C8, counterexample: the claim says ClipBoxes returns a new
array of clamped values for every input; for a single-row input it
raises the squeeze()/stack dimension error and returns no array at
all, while the in-place variant still produces the clamped values. -/
theorem c8_clip_frame_counterexample :
    ClipBoxes [⟨-1, -1, 9, 9⟩] ⟨0, 0, 5, 5⟩ = none
    ∧ ClipToWindow ⟨0, 0, 5, 5⟩ [⟨-1, -1, 9, 9⟩] = [⟨0, 0, 5, 5⟩]
    ∧ (none : Option (List (List ℚ))) ≠ some (([⟨0, 0, 5, 5⟩] : List Box).map toRow) := by
  decide

/-- Claim C8, amended: in the state-passing embedding, ClipBoxes never
changes the caller's storage; ClipToWindow returns exactly its mutated
storage, whose contents are the per-row clamp; and for row counts
other than one the array ClipBoxes returns holds exactly the values
ClipToWindow writes. -/
theorem c8_clip_frame_amended :
    ∀ (boxes : List Box) (w : Window),
      (ClipBoxesS boxes w).1 = boxes
      ∧ (ClipToWindowS w boxes).1 = (ClipToWindowS w boxes).2
      ∧ (ClipToWindowS w boxes).2 = boxes.map (clampBox w)
      ∧ (boxes.length ≠ 1 →
          (ClipBoxesS boxes w).2 = some (((ClipToWindowS w boxes).2).map toRow)) := by
  intro boxes w
  refine ⟨rfl, rfl, rfl, ?_⟩
  intro hne
  show ClipBoxes boxes w = _
  rw [ClipBoxes_eq_map w hne]
  rfl

/-- Claim C8, witness: a concrete two-row instance. -/
theorem c8_clip_frame_witness :
    (ClipBoxesS [⟨-2, 1, 7, 3⟩, ⟨0, 0, 1, 1⟩] ⟨0, 0, 4, 4⟩).2
      = some (((ClipToWindowS ⟨0, 0, 4, 4⟩ [⟨-2, 1, 7, 3⟩, ⟨0, 0, 1, 1⟩]).2).map toRow) :=
  (c8_clip_frame_amended _ _).2.2.2 (by decide)

/-- Claim C9 (confirmed): for a well-formed window, every coordinate
produced by either clipping variant lies inside the window:
y-coordinates in [w.y1, w.y2] and x-coordinates in [w.x1, w.x2]. -/
theorem c9_clip_postcondition :
    ∀ (w : Window) (boxes : List Box), w.y1 ≤ w.y2 → w.x1 ≤ w.x2 →
      (∀ rows, ClipBoxes boxes w = some rows → ∀ r ∈ rows,
        w.y1 ≤ r.getD 0 0 ∧ r.getD 0 0 ≤ w.y2 ∧ w.x1 ≤ r.getD 1 0 ∧ r.getD 1 0 ≤ w.x2 ∧
        w.y1 ≤ r.getD 2 0 ∧ r.getD 2 0 ≤ w.y2 ∧ w.x1 ≤ r.getD 3 0 ∧ r.getD 3 0 ≤ w.x2)
      ∧ (∀ b ∈ ClipToWindow w boxes,
        w.y1 ≤ b.y1 ∧ b.y1 ≤ w.y2 ∧ w.x1 ≤ b.x1 ∧ b.x1 ≤ w.x2 ∧
        w.y1 ≤ b.y2 ∧ b.y2 ≤ w.y2 ∧ w.x1 ≤ b.x2 ∧ b.x2 ≤ w.x2) := by
  intro w boxes hy hx
  constructor
  · intro rows hrows r hr
    by_cases hne : boxes.length = 1
    · rw [ClipBoxes_one w hne] at hrows
      exact absurd hrows (by simp)
    · rw [ClipBoxes_eq_map w hne] at hrows
      have hr2 := Option.some.inj hrows
      rw [← hr2] at hr
      simp only [List.map_map, List.mem_map] at hr
      obtain ⟨b, _, rfl⟩ := hr
      simp only [Function.comp, toRow, clampBox, List.getD_cons_zero, List.getD_cons_succ]
      exact ⟨lo_le_clampQ hy, clampQ_le_hi _ _ _, lo_le_clampQ hx, clampQ_le_hi _ _ _,
        lo_le_clampQ hy, clampQ_le_hi _ _ _, lo_le_clampQ hx, clampQ_le_hi _ _ _⟩
  · intro b hb
    simp only [ClipToWindow, List.mem_map] at hb
    obtain ⟨b0, _, rfl⟩ := hb
    simp only [clampBox]
    exact ⟨lo_le_clampQ hy, clampQ_le_hi _ _ _, lo_le_clampQ hx, clampQ_le_hi _ _ _,
      lo_le_clampQ hy, clampQ_le_hi _ _ _, lo_le_clampQ hx, clampQ_le_hi _ _ _⟩

/-- Claim C9, witness: the box (-1, 2, 9, 3) clipped in-place to the
window (0, 0, 4, 4) lands on (0, 2, 4, 3), inside the window. -/
theorem c9_clip_postcondition_witness :
    (0 : ℚ) ≤ 0 ∧ (0 : ℚ) ≤ 4 ∧ (0 : ℚ) ≤ 2 ∧ (2 : ℚ) ≤ 4 ∧
    (0 : ℚ) ≤ 4 ∧ (4 : ℚ) ≤ 4 ∧ (0 : ℚ) ≤ 3 ∧ (3 : ℚ) ≤ 4 :=
  (c9_clip_postcondition ⟨0, 0, 4, 4⟩ [⟨-1, 2, 9, 3⟩] (by decide) (by decide)).2
    ⟨0, 2, 4, 3⟩ (by decide)

/-- Claim C10 (confirmed): for paired inputs with at least two rows,
ApplyBoxDeltas and ClipBoxes return an array with the same row count
and four entries per row; for single-row inputs the squeeze step makes
both return nothing instead. -/
theorem c10_shape_preservation :
    ∀ (ex : ℚ → ℚ) (boxes : List Box) (deltas : List (List ℚ)) (w : Window),
      boxes.length = deltas.length →
      (2 ≤ boxes.length →
        (∃ rows, ApplyBoxDeltas ex boxes deltas = some rows ∧
          rows.length = boxes.length ∧ ∀ r ∈ rows, r.length = 4)
        ∧ (∃ rows, ClipBoxes boxes w = some rows ∧
          rows.length = boxes.length ∧ ∀ r ∈ rows, r.length = 4))
      ∧ (boxes.length = 1 →
        ApplyBoxDeltas ex boxes deltas = none ∧ ClipBoxes boxes w = none) := by
  intro ex boxes deltas w hlen
  have hzlen : (boxes.zip deltas).length = boxes.length := by
    simp [List.length_zip, ← hlen]
  constructor
  · intro h2
    constructor
    · refine ⟨_, ApplyBoxDeltas_eq_map ex boxes deltas (by omega), ?_, ?_⟩
      · simp [hzlen]
      · intro r hr
        simp only [List.mem_map] at hr
        obtain ⟨p, _, rfl⟩ := hr
        rfl
    · refine ⟨_, ClipBoxes_eq_map w (by omega), ?_, ?_⟩
      · simp
      · intro r hr
        simp only [List.map_map, List.mem_map] at hr
        obtain ⟨b, _, rfl⟩ := hr
        rfl
  · intro h1
    exact ⟨ApplyBoxDeltas_one ex boxes deltas (by omega),
      ClipBoxes_one w h1⟩

/-- Claim C10, witness: a concrete two-row instance of both shape
facts, with ex = id. -/
theorem c10_shape_preservation_witness :
    (∃ rows, ApplyBoxDeltas id [⟨0, 0, 1, 1⟩, ⟨0, 0, 2, 2⟩]
        [[0, 0, 0, 0], [1, 1, 0, 0]] = some rows ∧
      rows.length = ([⟨0, 0, 1, 1⟩, ⟨0, 0, 2, 2⟩] : List Box).length ∧
      ∀ r ∈ rows, r.length = 4)
    ∧ ∃ rows, ClipBoxes [⟨0, 0, 1, 1⟩, ⟨0, 0, 2, 2⟩] ⟨0, 0, 5, 5⟩ = some rows ∧
      rows.length = ([⟨0, 0, 1, 1⟩, ⟨0, 0, 2, 2⟩] : List Box).length ∧
      ∀ r ∈ rows, r.length = 4 :=
  (c10_shape_preservation id [⟨0, 0, 1, 1⟩, ⟨0, 0, 2, 2⟩]
    [[0, 0, 0, 0], [1, 1, 0, 0]] ⟨0, 0, 5, 5⟩ (by decide)).1 (by decide)

end BoxUtils
